import Mathlib

/-!
Shallow embedding of the chat-bot core loop (PicardRaphael/chat-bot):
the data model (`src/core/models.py`), the completion provider retry loop
(`src/api/openai_client.py`), the evaluation selection logic
(`src/services/evaluation_service.py`), the retry policy engine
(`src/services/retry_service.py`) and the orchestrator
(`src/services/chat_service.py`), together with theorems settling the
spec claims about them.

External, nondeterministic collaborators (the remote completion endpoint
and the structured-evaluation endpoint) are modelled as oracle functions
passed explicitly: an oracle indexed by the call position returns what the
remote service would return on that call (`none` modelling a raised
exception or an unparseable verdict, exactly as the Python code observes
them). Observable side effects (generation calls, evaluator calls, sleeps)
are returned as an explicit event trace.
-/

namespace ChatBot

/-- Verdict produced by the evaluator: `src/core/models.py`, class `Evaluation`
(fields `is_acceptable : bool`, `feedback : str`). -/
structure Evaluation where
  is_acceptable : Bool
  feedback : String
deriving DecidableEq, Repr

/-- Result of a retry operation: `src/services/retry_service.py`, class
`RetryResult`. Wall-clock execution time is modelled as an exact rational. -/
structure RetryResult where
  final_response : String
  was_successful : Bool
  attempts_made : Nat
  final_evaluation : Option Evaluation
  all_attempts : List String
  execution_time : ℚ
deriving DecidableEq, Repr

/-- Orchestrator response: `src/core/models.py`, class `ChatResponse`. -/
structure ChatResponse where
  content : String
  evaluation : Option Evaluation
  was_retried : Bool
deriving DecidableEq, Repr

/-! ## Completion provider (`src/api/openai_client.py`)

`OpenAIClient.create_chat_completion` loops `for attempt in range(max_retries)`.
The remote call is modelled by an oracle `api : Nat → Option (Option String)`:
`api attempt = none` models the call raising an exception on that attempt,
`api attempt = some c` models a response object whose extracted
`response.choices[0].message.content` is `c` (where `c = none` models a Python
`None` content and `c = some s` a string body `s`, possibly empty).
The embedding returns the value the Python function returns, paired with the
number of remote attempts actually made. -/

/-- Loop body of `create_chat_completion`: `attempt` is the 0-based index of
the current attempt, the second argument the remaining fuel
(`max_retries - attempt`). A non-raising attempt returns its content
immediately; a raising attempt on the last index returns `none`; otherwise
the loop (after a backoff sleep, irrelevant to the returned value) continues. -/
def cccLoop (api : Nat → Option (Option String)) (max_retries : Nat) :
    Nat → Nat → Option String × Nat
  | _, 0 => (none, max_retries)
  | attempt, r + 1 =>
    match api attempt with
    | some content => (content, attempt + 1)
    | none =>
      if attempt = max_retries - 1 then (none, attempt + 1)
      else cccLoop api max_retries (attempt + 1) r

/-- `OpenAIClient.create_chat_completion` (src/api/openai_client.py:47-83):
returns the content of the first non-raising remote call, or `none` after
`max_retries` raising calls, together with the number of calls made. -/
def create_chat_completion (api : Nat → Option (Option String))
    (max_retries : Nat) : Option String × Nat :=
  cccLoop api max_retries 0 max_retries

/-! ## Evaluation service (`src/services/evaluation_service.py`)

The evaluator endpoint is modelled by an oracle
`evalO : Nat → String → Option Evaluation`, indexed by the position of the
evaluation call (the loop index in `evaluate_multiple_responses`) and the
response text being judged; `none` models `evaluate_response` failing. -/

/-- Python truthiness of an `Optional[Evaluation]` conjoined with its
`is_acceptable` flag: the guard `evaluation and evaluation.is_acceptable`. -/
def acceptableOpt : Option Evaluation → Bool
  | some e => e.is_acceptable
  | none => false

/-- `EvaluationService.evaluate_multiple_responses`: evaluates each response
in order; the first argument is the index of the next evaluation call. -/
def evaluate_multiple_responses (evalO : Nat → String → Option Evaluation) :
    Nat → List String → List (Option Evaluation)
  | _, [] => []
  | i, r :: rs => evalO i r :: evaluate_multiple_responses evalO (i + 1) rs

/-- `EvaluationService.find_best_response`
(src/services/evaluation_service.py:112-140): `(none, none)` on an empty list;
otherwise evaluates all responses, scans `zip(responses, evaluations)` for the
first acceptable one, and falls back to the first response paired with its
evaluation. -/
def find_best_response (evalO : Nat → String → Option Evaluation) :
    List String → Option String × Option Evaluation
  | [] => (none, none)
  | r :: rs =>
    let responses := r :: rs
    let evaluations := evaluate_multiple_responses evalO 0 responses
    match (responses.zip evaluations).find? (fun p => acceptableOpt p.2) with
    | some p => (some p.1, p.2)
    | none => (some r, (evaluations.head?).getD none)

/-! ## Retry policy engine (`src/services/retry_service.py`)

`RetryService.retry_response` (one regeneration call) is modelled by an oracle
`gen : Nat → String → String → Option String`: applied to the 1-based attempt
number, the prompt's previous reply and the current feedback, it returns the
regenerated text, or `none` when generation failed. Observable effects are
recorded in a trace. -/

/-- One observable effect of the retry engine: a regeneration call (with the
previous reply and feedback it was given), an evaluator call, or a blocking
sleep of the given duration. -/
inductive RetryEvent where
  | genCall (attempt : Nat) (prev fb : String)
  | evalCall (attempt : Nat) (resp : String)
  | sleep (d : ℚ)
deriving DecidableEq, Repr

/-- Backoff delay between retry rounds
(src/services/retry_service.py:203-206):
`min(base_delay * backoff_factor ** (attempt - 1), max_delay)`. -/
def backoffDelay (bd md bf : ℚ) (attempt : Nat) : ℚ :=
  min (bd * bf ^ (attempt - 1)) md

/-- Loop body of `RetryService.retry_with_evaluation`
(src/services/retry_service.py:163-222). `attempt` is the 1-based round
index, the second `Nat` the remaining fuel (`max_retries + 1 - attempt` at
every reachable state); `attempts` is the growing attempt list (starting at
`[original_reply]`), `fb` the current feedback, and `evalVar` models the
Python local variable `evaluation` (`none` while unassigned, mirroring the
`"evaluation" in locals()` test in the exhausted return). A round that fails
to generate `continue`s — skipping evaluation, the feedback update and the
sleep; a round whose verdict is acceptable returns immediately; otherwise the
feedback is replaced when the verdict carries non-empty feedback, the engine
sleeps when the round is non-final, and the loop continues. -/
def retryLoop (gen : Nat → String → String → Option String)
    (evalO : Nat → String → Option Evaluation)
    (N : Nat) (bd md bf : ℚ) (orig : String) :
    Nat → Nat → List String → String → Option (Option Evaluation) →
    RetryResult × List RetryEvent
  | _, 0, attempts, _, evalVar =>
    ({ final_response := if 1 < attempts.length then attempts.getLast! else orig
       was_successful := false
       attempts_made := N
       final_evaluation := evalVar.getD none
       all_attempts := attempts
       execution_time := 0 }, [])
  | attempt, r + 1, attempts, fb, evalVar =>
    let prev := attempts.getLast!
    match gen attempt prev fb with
    | none =>
      let rest := retryLoop gen evalO N bd md bf orig (attempt + 1) r attempts fb evalVar
      (rest.1, RetryEvent.genCall attempt prev fb :: rest.2)
    | some resp =>
      let attempts' := attempts ++ [resp]
      match evalO attempt resp with
      | some e =>
        if e.is_acceptable then
          ({ final_response := resp
             was_successful := true
             attempts_made := attempt
             final_evaluation := some e
             all_attempts := attempts'
             execution_time := 0 },
           [RetryEvent.genCall attempt prev fb, RetryEvent.evalCall attempt resp])
        else
          let fb' := if e.feedback = "" then fb else e.feedback
          let sleeps := if attempt < N then [RetryEvent.sleep (backoffDelay bd md bf attempt)] else []
          let rest := retryLoop gen evalO N bd md bf orig (attempt + 1) r attempts' fb' (some (some e))
          (rest.1, RetryEvent.genCall attempt prev fb ::
            RetryEvent.evalCall attempt resp :: (sleeps ++ rest.2))
      | none =>
        let sleeps := if attempt < N then [RetryEvent.sleep (backoffDelay bd md bf attempt)] else []
        let rest := retryLoop gen evalO N bd md bf orig (attempt + 1) r attempts' fb (some none)
        (rest.1, RetryEvent.genCall attempt prev fb ::
          RetryEvent.evalCall attempt resp :: (sleeps ++ rest.2))

/-- `RetryService.retry_with_evaluation`
(src/services/retry_service.py:135-222) with `max_retries = N`: runs the
retry loop from round 1 on the attempt list `[original_reply]` with the
initial feedback. Returns the `RetryResult` and the event trace. -/
def retry_with_evaluation (gen : Nat → String → String → Option String)
    (evalO : Nat → String → Option Evaluation)
    (N : Nat) (bd md bf : ℚ) (orig fb : String) :
    RetryResult × List RetryEvent :=
  retryLoop gen evalO N bd md bf orig 1 N [orig] fb none

/-- Shared fall-through result of `RetryService.retry_best_of_n`
(src/services/retry_service.py:284-296): the last element of `attempts` when
any candidate was generated, else the original reply; never successful. -/
def bonFallback (orig : String) (attempts : List String) : RetryResult :=
  { final_response := if 1 < attempts.length then attempts.getLast! else orig
    was_successful := false
    attempts_made := attempts.length - 1
    final_evaluation := none
    all_attempts := attempts
    execution_time := 0 }

/-- `RetryService.retry_best_of_n` (src/services/retry_service.py:224-296).
In this strategy every generation call receives the *original* reply and the
*original* feedback, so the generation oracle here is indexed only by the
attempt number: `gen i` is what `retry_response` returns on attempt `i`.
Candidates are the successfully generated responses in order; if any exist,
`find_best_response` selects among them and its choice is returned as a
success only when it is truthy (non-empty) and its verdict is acceptable;
in every other case the fall-through result is returned. -/
def retry_best_of_n (gen : Nat → Option String)
    (evalO : Nat → String → Option Evaluation)
    (orig : String) (n_attempts : Nat) : RetryResult :=
  let candidates := (List.range' 1 n_attempts).filterMap gen
  let attempts := orig :: candidates
  if 1 < attempts.length then
    match find_best_response evalO candidates with
    | (some best_response, some best_evaluation) =>
      if best_response ≠ "" ∧ best_evaluation.is_acceptable then
        { final_response := best_response
          was_successful := true
          attempts_made := candidates.length
          final_evaluation := some best_evaluation
          all_attempts := attempts
          execution_time := 0 }
      else bonFallback orig attempts
    | _ => bonFallback orig attempts
  else bonFallback orig attempts

/-- Event trace of `retry_best_of_n`: one generation call per attempt
(always with the original reply and feedback), then — when at least one
candidate was generated — one evaluator call per candidate in order, made
by `find_best_response` via `evaluate_multiple_responses`. -/
def bonEvents (gen : Nat → Option String) (orig fb : String) (n_attempts : Nat) :
    List RetryEvent :=
  let candidates := (List.range' 1 n_attempts).filterMap gen
  ((List.range' 1 n_attempts).map fun i => RetryEvent.genCall i orig fb) ++
    (if 1 < (orig :: candidates).length then
      candidates.enum.map fun p => RetryEvent.evalCall p.1 p.2
    else [])

/-- Strategy selector: `src/services/retry_service.py`, enum `RetryStrategy`. -/
inductive RetryStrategy where
  | single
  | multiple
  | progressive
  | best_of_n
deriving DecidableEq, Repr

/-- `RetryService.retry_with_strategy` (src/services/retry_service.py:298-366).
`SINGLE` makes exactly one generation call; if it produced a response that
response is evaluated once and returned with its verdict, otherwise the
original reply is returned unevaluated. `MULTIPLE` and `PROGRESSIVE` both
dispatch to `retry_with_evaluation`; `BEST_OF_N` dispatches to
`retry_best_of_n` with its default `n_attempts = 3`. -/
def retry_with_strategy (gen : Nat → String → String → Option String)
    (evalO : Nat → String → Option Evaluation)
    (N : Nat) (bd md bf : ℚ) (orig fb : String) :
    RetryStrategy → RetryResult × List RetryEvent
  | RetryStrategy.single =>
    match gen 1 orig fb with
    | some resp =>
      let ev := evalO 1 resp
      ({ final_response := resp
         was_successful := acceptableOpt ev
         attempts_made := 1
         final_evaluation := ev
         all_attempts := [orig, resp]
         execution_time := 0 },
       [RetryEvent.genCall 1 orig fb, RetryEvent.evalCall 1 resp])
    | none =>
      ({ final_response := orig
         was_successful := false
         attempts_made := 1
         final_evaluation := none
         all_attempts := [orig]
         execution_time := 0 },
       [RetryEvent.genCall 1 orig fb])
  | RetryStrategy.multiple => retry_with_evaluation gen evalO N bd md bf orig fb
  | RetryStrategy.progressive => retry_with_evaluation gen evalO N bd md bf orig fb
  | RetryStrategy.best_of_n =>
    (retry_best_of_n (fun i => gen i orig fb) evalO orig 3, bonEvents (fun i => gen i orig fb) orig fb 3)

/-- Retry metrics record: the dictionary built by
`RetryService.get_retry_metrics` (src/services/retry_service.py:368-392). -/
structure RetryMetrics where
  success_rate : ℚ
  attempts_made : Nat
  execution_time_seconds : ℚ
  time_per_attempt : ℚ
  total_responses_generated : Nat
  final_evaluation_score : ℚ
  has_feedback : Bool
deriving DecidableEq, Repr

/-- `RetryService.get_retry_metrics` (src/services/retry_service.py:368-392):
the `time_per_attempt` division is guarded by `max(result.attempts_made, 1)`. -/
def get_retry_metrics (result : RetryResult) : RetryMetrics :=
  { success_rate := if result.was_successful then 1 else 0
    attempts_made := result.attempts_made
    execution_time_seconds := result.execution_time
    time_per_attempt := result.execution_time / (max result.attempts_made 1 : ℚ)
    total_responses_generated := result.all_attempts.length
    final_evaluation_score :=
      match result.final_evaluation with
      | some e => if e.is_acceptable then 1 else 0
      | none => 0
    has_feedback :=
      match result.final_evaluation with
      | some e => e.feedback ≠ ""
      | none => false }

/-! ## Orchestrator (`src/services/chat_service.py`)

`ChatService.process_chat_request` is modelled with its three collaborators
as oracles: the initial generation result (`generate_response`), the
evaluator, and the retry engine (`retry_with_strategy`, abstracted as a
function from the rejected reply and the rejection feedback to a
`RetryResult`). Its observable calls are traced. -/

/-- One observable call made by the orchestrator on a turn. -/
inductive ChatEvent where
  | evalCall (reply : String)
  | retryCall (reply fb : String)
deriving DecidableEq, Repr

/-- Fallback apology substituted when initial generation fails
(src/services/chat_service.py:86). -/
def fallbackReply : String := "Sorry, I couldn't generate a response."

/-- `ChatService.process_chat_request` (src/services/chat_service.py:71-140):
the initial reply is the generation result, or the fallback apology when
generation failed; the reply is then evaluated unconditionally. An acceptable
or absent verdict returns the reply as-is (`was_retried = false`); a rejecting
verdict invokes the retry engine, whose final response replaces the reply
(`was_retried = true`) only when the retry was successful. -/
def process_chat_request (genResult : Option String)
    (evalO : String → Option Evaluation)
    (retryF : String → String → RetryResult) :
    ChatResponse × List ChatEvent :=
  let reply := genResult.getD fallbackReply
  match evalO reply with
  | some e =>
    if e.is_acceptable then
      ({ content := reply, evaluation := some e, was_retried := false },
       [ChatEvent.evalCall reply])
    else
      let rr := retryF reply e.feedback
      if rr.was_successful then
        ({ content := rr.final_response, evaluation := some e, was_retried := true },
         [ChatEvent.evalCall reply, ChatEvent.retryCall reply e.feedback])
      else
        ({ content := reply, evaluation := some e, was_retried := false },
         [ChatEvent.evalCall reply, ChatEvent.retryCall reply e.feedback])
  | none =>
    ({ content := reply, evaluation := none, was_retried := false },
     [ChatEvent.evalCall reply])

/-! ## Trace observers

Functions reading facts off a retry event trace; used to state the claims
about the retry loop's dynamics. -/

/-- Number of generation calls recorded in a trace. -/
def genCount : List RetryEvent → Nat
  | [] => 0
  | RetryEvent.genCall _ _ _ :: rest => genCount rest + 1
  | _ :: rest => genCount rest

/-- The response evaluated right at the start of a trace fragment, if the
fragment starts with an evaluator call. -/
def headResponse : List RetryEvent → Option String
  | RetryEvent.evalCall _ resp :: _ => some resp
  | _ => none

/-- Per-round records read off a trace: for each generation call, the round
index, the feedback it was given, and the response generated in that round
(`none` when the round produced no response, i.e. no evaluator call follows). -/
def roundRecords : List RetryEvent → List (Nat × String × Option String)
  | [] => []
  | RetryEvent.genCall a _ f :: rest => (a, f, headResponse rest) :: roundRecords rest
  | _ :: rest => roundRecords rest

/-- The feedback the next round must use, given the current feedback `fb` and
what round `a` produced: when the round generated a response whose verdict
carries non-empty feedback, that feedback; in every other case (no response,
no verdict, or a verdict with empty feedback) the feedback is unchanged. -/
def nextFeedback (evalO : Nat → String → Option Evaluation) (fb : String) (a : Nat) :
    Option String → String
  | some resp =>
    match evalO a resp with
    | some e => if e.feedback = "" then fb else e.feedback
    | none => fb
  | none => fb

/-- Checks that the feedback recorded in each round of a record list follows
the `nextFeedback` recurrence, starting from `fb`. -/
def feedbackChain (evalO : Nat → String → Option Evaluation) :
    String → List (Nat × String × Option String) → Bool
  | _, [] => true
  | fb, (a, f, r) :: rest =>
    (f == fb) && feedbackChain evalO (nextFeedback evalO fb a r) rest

/-- Checks the sleep discipline of a retry trace: every sleep immediately
follows an evaluator call of a non-final round (index `< N`) and lasts
exactly `backoffDelay bd md bf` of that round; every evaluator call is either
the last event of the trace (a terminal round) or immediately followed by
such a sleep; no sleep occurs anywhere else — in particular not after a
round that failed to generate. -/
def sleepsOk (N : Nat) (bd md bf : ℚ) : List RetryEvent → Bool
  | [] => true
  | RetryEvent.sleep _ :: _ => false
  | RetryEvent.evalCall a _ :: rest =>
    (match rest with
     | RetryEvent.sleep d :: rest' =>
       decide (a < N) && decide (d = backoffDelay bd md bf a) && sleepsOk N bd md bf rest'
     | [] => true
     | _ => false)
  | RetryEvent.genCall _ _ _ :: rest => sleepsOk N bd md bf rest

/-! ## Helper lemmas -/

/-- When every remote attempt with index in `[attempt, m)` raises, the
completion loop returns `none` after the full `m` calls. -/
lemma cccLoop_all_fail (api : Nat → Option (Option String)) (m : Nat) :
    ∀ r attempt, attempt + r = m → (∀ i, attempt ≤ i → i < m → api i = none) →
      cccLoop api m attempt r = (none, m) := by
  intro r
  induction r with
  | zero => intro attempt _ _; simp [cccLoop]
  | succ r ih =>
    intro attempt heq hfail
    have hlt : attempt < m := by omega
    have h0 : api attempt = none := hfail attempt le_rfl hlt
    by_cases hlast : attempt = m - 1
    · have h1 : attempt + 1 = m := by omega
      rw [cccLoop, h0]
      simp only [if_pos hlast]
      rw [h1]
    · rw [cccLoop, h0]
      simp only [if_neg hlast]
      exact ih (attempt + 1) (by omega) (fun i hi1 hi2 => hfail i (by omega) hi2)

/-- When the first non-raising remote attempt has index `i₀`, the completion
loop returns that attempt's content after `i₀ + 1` calls. -/
lemma cccLoop_first_success (api : Nat → Option (Option String)) (m : Nat) :
    ∀ r attempt i₀ c, attempt + r = m → attempt ≤ i₀ → i₀ < m →
      (∀ i, attempt ≤ i → i < i₀ → api i = none) → api i₀ = some c →
      cccLoop api m attempt r = (c, i₀ + 1) := by
  intro r
  induction r with
  | zero => intro attempt i₀ c heq h1 h2 _ _; omega
  | succ r ih =>
    intro attempt i₀ c heq h1 h2 hfail hsucc
    rcases Nat.eq_or_lt_of_le h1 with heq1 | hlt1
    · subst heq1
      rw [cccLoop, hsucc]
    · have h0 : api attempt = none := hfail attempt le_rfl hlt1
      have hlast : ¬ attempt = m - 1 := by omega
      rw [cccLoop, h0]
      simp only [if_neg hlast]
      exact ih (attempt + 1) i₀ c (by omega) (by omega) h2
        (fun i hi1 hi2 => hfail i (by omega) hi2) hsucc

/-- Generation calls counted across a concatenation. -/
lemma genCount_append : ∀ (xs ys : List RetryEvent),
    genCount (xs ++ ys) = genCount xs + genCount ys := by
  intro xs ys
  induction xs with
  | nil => simp [genCount]
  | cons x xs ih =>
    cases x with
    | genCall a p f =>
      simp [genCount, ih]
      omega
    | evalCall a s => simp [genCount, ih]
    | sleep d => simp [genCount, ih]

/-- A retry-loop trace is empty or starts with a generation call of the
current round. -/
lemma retryLoop_shape (gen : Nat → String → String → Option String)
    (evalO : Nat → String → Option Evaluation) (N : Nat) (bd md bf : ℚ)
    (orig : String) (attempt r : Nat) (attempts : List String) (fb : String)
    (evalVar : Option (Option Evaluation)) :
    (retryLoop gen evalO N bd md bf orig attempt r attempts fb evalVar).2 = [] ∨
    ∃ p f rest, (retryLoop gen evalO N bd md bf orig attempt r attempts fb evalVar).2 =
      RetryEvent.genCall attempt p f :: rest := by
  cases r with
  | zero => left; rfl
  | succ r =>
    right
    rcases hg : gen attempt (attempts.getLast!) fb with _ | resp
    · simp only [retryLoop, hg]
      exact ⟨_, _, _, rfl⟩
    · rcases he : evalO attempt resp with _ | e
      · simp only [retryLoop, hg, he]
        exact ⟨_, _, _, rfl⟩
      · by_cases ha : e.is_acceptable
        · simp only [retryLoop, hg, he, ha, if_true]
          exact ⟨_, _, _, rfl⟩
        · simp only [retryLoop, hg, he, ha, if_false]
          exact ⟨_, _, _, rfl⟩

/-- Every event in a retry-loop trace belongs to a round at or after the
current one. -/
lemma retryLoop_idx (gen : Nat → String → String → Option String)
    (evalO : Nat → String → Option Evaluation) (N : Nat) (bd md bf : ℚ)
    (orig : String) :
    ∀ (r attempt : Nat) (attempts : List String) (fb : String)
      (evalVar : Option (Option Evaluation)),
      (∀ a p f, RetryEvent.genCall a p f ∈
        (retryLoop gen evalO N bd md bf orig attempt r attempts fb evalVar).2 →
        attempt ≤ a) ∧
      (∀ a resp, RetryEvent.evalCall a resp ∈
        (retryLoop gen evalO N bd md bf orig attempt r attempts fb evalVar).2 →
        attempt ≤ a) := by
  intro r
  induction r with
  | zero =>
    intro attempt attempts fb evalVar
    constructor
    · intro a p f hmem
      simp [retryLoop] at hmem
    · intro a resp hmem
      simp [retryLoop] at hmem
  | succ r ih =>
    intro attempt attempts fb evalVar
    rcases hg : gen attempt (attempts.getLast!) fb with _ | resp
    · have ihh := ih (attempt + 1) attempts fb evalVar
      constructor
      · intro a p f hmem
        simp only [retryLoop, hg, List.mem_cons, RetryEvent.genCall.injEq] at hmem
        rcases hmem with ⟨h1, -, -⟩ | hmem
        · omega
        · have := ihh.1 a p f hmem
          omega
      · intro a resp hmem
        simp [retryLoop, hg] at hmem
        have := ihh.2 a resp hmem
        omega
    · rcases he : evalO attempt resp with _ | e
      · have ihh := ih (attempt + 1) (attempts ++ [resp]) fb (some none)
        by_cases hN : attempt < N
        · constructor
          · intro a p f hmem
            simp [retryLoop, hg, he, hN] at hmem
            rcases hmem with ⟨h1, -, -⟩ | hmem
            · omega
            · have := ihh.1 a p f hmem
              omega
          · intro a resp' hmem
            simp [retryLoop, hg, he, hN] at hmem
            rcases hmem with ⟨h1, -⟩ | hmem
            · omega
            · have := ihh.2 a resp' hmem
              omega
        · constructor
          · intro a p f hmem
            simp [retryLoop, hg, he, hN] at hmem
            rcases hmem with ⟨h1, -, -⟩ | hmem
            · omega
            · have := ihh.1 a p f hmem
              omega
          · intro a resp' hmem
            simp [retryLoop, hg, he, hN] at hmem
            rcases hmem with ⟨h1, -⟩ | hmem
            · omega
            · have := ihh.2 a resp' hmem
              omega
      · by_cases ha : e.is_acceptable
        · constructor
          · intro a p f hmem
            simp [retryLoop, hg, he, ha] at hmem
            obtain ⟨h1, -, -⟩ := hmem
            omega
          · intro a resp' hmem
            simp [retryLoop, hg, he, ha] at hmem
            obtain ⟨h1, -⟩ := hmem
            omega
        · have ihh := ih (attempt + 1) (attempts ++ [resp])
            (if e.feedback = "" then fb else e.feedback) (some (some e))
          by_cases hN : attempt < N
          · constructor
            · intro a p f hmem
              simp [retryLoop, hg, he, ha, hN] at hmem
              rcases hmem with ⟨h1, -, -⟩ | hmem
              · omega
              · have := ihh.1 a p f hmem
                omega
            · intro a resp' hmem
              simp [retryLoop, hg, he, ha, hN] at hmem
              rcases hmem with ⟨h1, -⟩ | hmem
              · omega
              · have := ihh.2 a resp' hmem
                omega
          · constructor
            · intro a p f hmem
              simp [retryLoop, hg, he, ha, hN] at hmem
              rcases hmem with ⟨h1, -, -⟩ | hmem
              · omega
              · have := ihh.1 a p f hmem
                omega
            · intro a resp' hmem
              simp [retryLoop, hg, he, ha, hN] at hmem
              rcases hmem with ⟨h1, -⟩ | hmem
              · omega
              · have := ihh.2 a resp' hmem
                omega

/-- Loop invariant for the round bound and early stopping of
`retry_with_evaluation`: a loop with fuel `r` makes at most `r` generation
calls, and whenever the trace contains an evaluator call whose verdict is
acceptable, the loop result is that round's response, returned successfully
with `attempts_made` equal to that round's index, and no later round ran. -/
lemma retryLoop_c4 (gen : Nat → String → String → Option String)
    (evalO : Nat → String → Option Evaluation) (N : Nat) (bd md bf : ℚ)
    (orig : String) :
    ∀ (r attempt : Nat) (attempts : List String) (fb : String)
      (evalVar : Option (Option Evaluation)),
      genCount (retryLoop gen evalO N bd md bf orig attempt r attempts fb evalVar).2 ≤ r ∧
      (∀ a resp e, RetryEvent.evalCall a resp ∈
          (retryLoop gen evalO N bd md bf orig attempt r attempts fb evalVar).2 →
        evalO a resp = some e → e.is_acceptable = true →
        (retryLoop gen evalO N bd md bf orig attempt r attempts fb evalVar).1.was_successful
            = true ∧
        (retryLoop gen evalO N bd md bf orig attempt r attempts fb evalVar).1.attempts_made
            = a ∧
        (retryLoop gen evalO N bd md bf orig attempt r attempts fb evalVar).1.final_response
            = resp ∧
        (∀ b p f, RetryEvent.genCall b p f ∈
          (retryLoop gen evalO N bd md bf orig attempt r attempts fb evalVar).2 →
          b ≤ a)) := by
  intro r
  induction r with
  | zero =>
    intro attempt attempts fb evalVar
    constructor
    · simp [retryLoop, genCount]
    · intro a resp e hmem
      simp [retryLoop] at hmem
  | succ r ih =>
    intro attempt attempts fb evalVar
    rcases hg : gen attempt (attempts.getLast!) fb with _ | resp
    · have hstep : retryLoop gen evalO N bd md bf orig attempt (r + 1) attempts fb evalVar =
        ((retryLoop gen evalO N bd md bf orig (attempt + 1) r attempts fb evalVar).1,
         RetryEvent.genCall attempt attempts.getLast! fb ::
           (retryLoop gen evalO N bd md bf orig (attempt + 1) r attempts fb evalVar).2) := by
        simp only [retryLoop, hg]
      have ihh := ih (attempt + 1) attempts fb evalVar
      have hidx := (retryLoop_idx gen evalO N bd md bf orig r (attempt + 1)
        attempts fb evalVar).2
      rw [hstep]
      have h1 := ihh.1
      constructor
      · simp only [genCount]
        omega
      · intro a resp e hmem hev hacc
        simp only [List.mem_cons] at hmem
        rcases hmem with heq | hmem
        · exact absurd heq (by simp)
        · have h2 := ihh.2 a resp e hmem hev hacc
          refine ⟨h2.1, h2.2.1, h2.2.2.1, ?_⟩
          intro b p f hb
          simp only [List.mem_cons] at hb
          rcases hb with heqb | hb
          · obtain ⟨hb1, -, -⟩ := RetryEvent.genCall.inj heqb
            have := hidx a resp hmem
            omega
          · exact h2.2.2.2 b p f hb
    · rcases he : evalO attempt resp with _ | e
      · have ihh := ih (attempt + 1) (attempts ++ [resp]) fb (some none)
        have hidx := (retryLoop_idx gen evalO N bd md bf orig r (attempt + 1)
          (attempts ++ [resp]) fb (some none)).2
        have h1 := ihh.1
        by_cases hN : attempt < N
        · have hstep : retryLoop gen evalO N bd md bf orig attempt (r + 1) attempts fb evalVar =
            ((retryLoop gen evalO N bd md bf orig (attempt + 1) r (attempts ++ [resp])
                fb (some none)).1,
             RetryEvent.genCall attempt attempts.getLast! fb ::
               RetryEvent.evalCall attempt resp ::
                 RetryEvent.sleep (backoffDelay bd md bf attempt) ::
                   (retryLoop gen evalO N bd md bf orig (attempt + 1) r (attempts ++ [resp])
                     fb (some none)).2) := by
            simp only [retryLoop, hg, he, if_pos hN, List.singleton_append]
          rw [hstep]
          constructor
          · simp only [genCount]
            omega
          · intro a resp' e hmem hev hacc
            simp only [List.mem_cons] at hmem
            rcases hmem with heq | heq | heq | hmem
            · exact absurd heq (by simp)
            · obtain ⟨ha1, ha2⟩ := RetryEvent.evalCall.inj heq
              subst ha1; subst ha2
              rw [he] at hev
              exact absurd hev (by simp)
            · exact absurd heq (by simp)
            · have h2 := ihh.2 a resp' e hmem hev hacc
              refine ⟨h2.1, h2.2.1, h2.2.2.1, ?_⟩
              intro b p f hb
              simp only [List.mem_cons] at hb
              rcases hb with heqb | heqb | heqb | hb
              · obtain ⟨hb1, -, -⟩ := RetryEvent.genCall.inj heqb
                have := hidx a resp' hmem
                omega
              · exact absurd heqb (by simp)
              · exact absurd heqb (by simp)
              · exact h2.2.2.2 b p f hb
        · have hstep : retryLoop gen evalO N bd md bf orig attempt (r + 1) attempts fb evalVar =
            ((retryLoop gen evalO N bd md bf orig (attempt + 1) r (attempts ++ [resp])
                fb (some none)).1,
             RetryEvent.genCall attempt attempts.getLast! fb ::
               RetryEvent.evalCall attempt resp ::
                 (retryLoop gen evalO N bd md bf orig (attempt + 1) r (attempts ++ [resp])
                   fb (some none)).2) := by
            simp only [retryLoop, hg, he, if_neg hN, List.nil_append]
          rw [hstep]
          constructor
          · simp only [genCount]
            omega
          · intro a resp' e hmem hev hacc
            simp only [List.mem_cons] at hmem
            rcases hmem with heq | heq | hmem
            · exact absurd heq (by simp)
            · obtain ⟨ha1, ha2⟩ := RetryEvent.evalCall.inj heq
              subst ha1; subst ha2
              rw [he] at hev
              exact absurd hev (by simp)
            · have h2 := ihh.2 a resp' e hmem hev hacc
              refine ⟨h2.1, h2.2.1, h2.2.2.1, ?_⟩
              intro b p f hb
              simp only [List.mem_cons] at hb
              rcases hb with heqb | heqb | hb
              · obtain ⟨hb1, -, -⟩ := RetryEvent.genCall.inj heqb
                have := hidx a resp' hmem
                omega
              · exact absurd heqb (by simp)
              · exact h2.2.2.2 b p f hb
      · by_cases ha : e.is_acceptable
        · have hstep : retryLoop gen evalO N bd md bf orig attempt (r + 1) attempts fb evalVar =
            ({ final_response := resp, was_successful := true, attempts_made := attempt,
               final_evaluation := some e, all_attempts := attempts ++ [resp],
               execution_time := 0 },
             [RetryEvent.genCall attempt attempts.getLast! fb,
              RetryEvent.evalCall attempt resp]) := by
            simp only [retryLoop, hg, he, ha, if_true]
          rw [hstep]
          constructor
          · simp only [genCount]
            omega
          · intro a resp' e' hmem hev hacc
            simp only [List.mem_cons, List.not_mem_nil, or_false] at hmem
            rcases hmem with heq | heq
            · exact absurd heq (by simp)
            · obtain ⟨ha1, ha2⟩ := RetryEvent.evalCall.inj heq
              subst ha1; subst ha2
              refine ⟨rfl, rfl, rfl, ?_⟩
              intro b p f hb
              simp only [List.mem_cons, List.not_mem_nil, or_false] at hb
              rcases hb with heqb | heqb
              · obtain ⟨hb1, -, -⟩ := RetryEvent.genCall.inj heqb
                omega
              · exact absurd heqb (by simp)
        · have ihh := ih (attempt + 1) (attempts ++ [resp])
            (if e.feedback = "" then fb else e.feedback) (some (some e))
          have hidx := (retryLoop_idx gen evalO N bd md bf orig r (attempt + 1)
            (attempts ++ [resp]) (if e.feedback = "" then fb else e.feedback)
            (some (some e))).2
          have h1 := ihh.1
          by_cases hN : attempt < N
          · have hstep : retryLoop gen evalO N bd md bf orig attempt (r + 1) attempts fb
                evalVar =
              ((retryLoop gen evalO N bd md bf orig (attempt + 1) r (attempts ++ [resp])
                  (if e.feedback = "" then fb else e.feedback) (some (some e))).1,
               RetryEvent.genCall attempt attempts.getLast! fb ::
                 RetryEvent.evalCall attempt resp ::
                   RetryEvent.sleep (backoffDelay bd md bf attempt) ::
                     (retryLoop gen evalO N bd md bf orig (attempt + 1) r (attempts ++ [resp])
                       (if e.feedback = "" then fb else e.feedback) (some (some e))).2) := by
              simp only [retryLoop, hg, he, ha, Bool.false_eq_true, if_false, if_pos hN,
                List.singleton_append]
            rw [hstep]
            constructor
            · simp only [genCount]
              omega
            · intro a resp' e' hmem hev hacc
              simp only [List.mem_cons] at hmem
              rcases hmem with heq | heq | heq | hmem
              · exact absurd heq (by simp)
              · obtain ⟨ha1, ha2⟩ := RetryEvent.evalCall.inj heq
                subst ha1; subst ha2
                rw [he] at hev
                obtain rfl := Option.some.inj hev
                rw [hacc] at ha
                exact absurd rfl ha
              · exact absurd heq (by simp)
              · have h2 := ihh.2 a resp' e' hmem hev hacc
                refine ⟨h2.1, h2.2.1, h2.2.2.1, ?_⟩
                intro b p f hb
                simp only [List.mem_cons] at hb
                rcases hb with heqb | heqb | heqb | hb
                · obtain ⟨hb1, -, -⟩ := RetryEvent.genCall.inj heqb
                  have := hidx a resp' hmem
                  omega
                · exact absurd heqb (by simp)
                · exact absurd heqb (by simp)
                · exact h2.2.2.2 b p f hb
          · have hstep : retryLoop gen evalO N bd md bf orig attempt (r + 1) attempts fb
                evalVar =
              ((retryLoop gen evalO N bd md bf orig (attempt + 1) r (attempts ++ [resp])
                  (if e.feedback = "" then fb else e.feedback) (some (some e))).1,
               RetryEvent.genCall attempt attempts.getLast! fb ::
                 RetryEvent.evalCall attempt resp ::
                   (retryLoop gen evalO N bd md bf orig (attempt + 1) r (attempts ++ [resp])
                     (if e.feedback = "" then fb else e.feedback) (some (some e))).2) := by
              simp only [retryLoop, hg, he, ha, Bool.false_eq_true, if_false, if_neg hN,
                List.nil_append]
            rw [hstep]
            constructor
            · simp only [genCount]
              omega
            · intro a resp' e' hmem hev hacc
              simp only [List.mem_cons] at hmem
              rcases hmem with heq | heq | hmem
              · exact absurd heq (by simp)
              · obtain ⟨ha1, ha2⟩ := RetryEvent.evalCall.inj heq
                subst ha1; subst ha2
                rw [he] at hev
                obtain rfl := Option.some.inj hev
                rw [hacc] at ha
                exact absurd rfl ha
              · have h2 := ihh.2 a resp' e' hmem hev hacc
                refine ⟨h2.1, h2.2.1, h2.2.2.1, ?_⟩
                intro b p f hb
                simp only [List.mem_cons] at hb
                rcases hb with heqb | heqb | hb
                · obtain ⟨hb1, -, -⟩ := RetryEvent.genCall.inj heqb
                  have := hidx a resp' hmem
                  omega
                · exact absurd heqb (by simp)
                · exact h2.2.2.2 b p f hb

/-! ## Claim theorems -/

/-- C9: for every `RetryResult`, including one with `attempts_made = 0`,
`get_retry_metrics` is well defined: the `time_per_attempt` divisor
`max(attempts_made, 1)` is positive (never zero), and the computed
`time_per_attempt` genuinely is the execution time divided by it. -/
theorem c9_metrics_division_guarded (result : RetryResult) :
    (0 : ℚ) < ((max result.attempts_made 1 : Nat) : ℚ) ∧
    (get_retry_metrics result).time_per_attempt *
        ((max result.attempts_made 1 : Nat) : ℚ) = result.execution_time := by
  have hpos2 : (0 : ℚ) < max (result.attempts_made : ℚ) 1 :=
    lt_max_iff.mpr (Or.inr one_pos)
  have hpos : (0 : ℚ) < ((max result.attempts_made 1 : Nat) : ℚ) := by
    rw [Nat.cast_max, Nat.cast_one]
    exact hpos2
  refine ⟨hpos, ?_⟩
  simp only [get_retry_metrics, Nat.cast_max, Nat.cast_one]
  exact div_mul_cancel₀ _ (ne_of_gt hpos2)

/-- C3 counterexample: with a remote call that succeeds with an explicitly
empty body, `create_chat_completion` with `max_retries = 2` returns the empty
body as success after a single attempt — it neither proceeds to the next
attempt nor makes exactly `max_retries` tries, contradicting the claim that
an empty body is treated as a soft failure and never returned as success. -/
theorem c3_counterexample :
    create_chat_completion (fun _ => some (some "")) 2 = (some "", 1) ∧
    ("" : String).length = 0 ∧ (1 : Nat) ≠ 2 := by
  refine ⟨rfl, rfl, by omega⟩

/-- C3 amended: `create_chat_completion` returns the content of the first
non-raising attempt as-is — even an empty or absent body — after exactly
that many tries, and signals no-result after exactly `max_retries` tries
only when every attempt raises; only raising attempts are retried. -/
theorem c3_amended_first_nonraising_returned (api : Nat → Option (Option String))
    (m : Nat) :
    ((∀ i, i < m → api i = none) → create_chat_completion api m = (none, m)) ∧
    (∀ i₀ c, i₀ < m → (∀ i, i < i₀ → api i = none) → api i₀ = some c →
      create_chat_completion api m = (c, i₀ + 1)) := by
  constructor
  · intro hfail
    exact cccLoop_all_fail api m m 0 (by omega) (fun i _ hi => hfail i hi)
  · intro i₀ c h2 hfail hsucc
    exact cccLoop_first_success api m m 0 i₀ c (by omega) (by omega) h2
      (fun i _ hi => hfail i hi) hsucc

/-- Witness for the amended C3 at concrete inputs: three raising attempts
give `(none, 3)`; raise-then-succeed gives the second attempt's content
after 2 tries. -/
theorem c3_amended_witness :
    create_chat_completion (fun _ => none) 3 = (none, 3) ∧
    create_chat_completion (fun i => if i = 1 then some (some "hi") else none) 3 =
      (some "hi", 2) := by
  constructor
  · exact (c3_amended_first_nonraising_returned (fun _ => none) 3).1 (fun i _ => rfl)
  · exact (c3_amended_first_nonraising_returned
      (fun i => if i = 1 then some (some "hi") else none) 3).2 1 (some "hi")
      (by omega) (fun i h1 => by interval_cases i; rfl) rfl

/-- C10: under the SINGLE strategy, when the one regeneration attempt
produces no response, the result is the original rejected reply with success
flag false, `attempts_made = 1`, no final verdict, an attempt trace holding
only the original reply — and the evaluator is never invoked. -/
theorem c10_single_no_generation (gen : Nat → String → String → Option String)
    (evalO : Nat → String → Option Evaluation) (N : Nat) (bd md bf : ℚ)
    (orig fb : String) (hgen : gen 1 orig fb = none) :
    retry_with_strategy gen evalO N bd md bf orig fb RetryStrategy.single =
      ({ final_response := orig, was_successful := false, attempts_made := 1,
         final_evaluation := none, all_attempts := [orig], execution_time := 0 },
       [RetryEvent.genCall 1 orig fb]) ∧
    ∀ a r, RetryEvent.evalCall a r ∉
      (retry_with_strategy gen evalO N bd md bf orig fb RetryStrategy.single).2 := by
  have h : retry_with_strategy gen evalO N bd md bf orig fb RetryStrategy.single =
      ({ final_response := orig, was_successful := false, attempts_made := 1,
         final_evaluation := none, all_attempts := [orig], execution_time := 0 },
       [RetryEvent.genCall 1 orig fb]) := by
    rw [retry_with_strategy, hgen]
  refine ⟨h, ?_⟩
  intro a r
  rw [h]
  simp

/-- Witness for C10 at a concrete input: a generation oracle that always
fails leaves the original reply as the result of the SINGLE strategy. -/
theorem c10_single_no_generation_witness :
    (retry_with_strategy (fun _ _ _ => none) (fun _ _ => none) 3 1 10 2 "o" "f"
        RetryStrategy.single).1.final_response = "o" ∧
    (retry_with_strategy (fun _ _ _ => none) (fun _ _ => none) 3 1 10 2 "o" "f"
        RetryStrategy.single).1.attempts_made = 1 := by
  have h := c10_single_no_generation (fun _ _ _ => none) (fun _ _ => none)
    3 1 10 2 "o" "f" rfl
  rw [h.1]
  exact ⟨rfl, rfl⟩

/-- C2 counterexample: when initial generation fails, the fallback apology is
evaluated (the Evaluator IS invoked on that turn), and when that evaluation
rejects and the retry succeeds, the returned content is the retry's reply,
not the fallback apology — refuting both parts of the claim. -/
theorem c2_counterexample :
    (process_chat_request none (fun _ => some ⟨false, "f"⟩)
        (fun _ _ => { final_response := "better", was_successful := true,
                      attempts_made := 1, final_evaluation := none,
                      all_attempts := [], execution_time := 0 })).1.content = "better" ∧
    "better" ≠ fallbackReply ∧
    ChatEvent.evalCall fallbackReply ∈
      (process_chat_request none (fun _ => some ⟨false, "f"⟩)
        (fun _ _ => { final_response := "better", was_successful := true,
                      attempts_made := 1, final_evaluation := none,
                      all_attempts := [], execution_time := 0 })).2 := by
  refine ⟨rfl, by decide, ?_⟩
  exact List.mem_cons_self _ _

/-- C2 amended: when initial generation fails, the fixed fallback apology is
substituted as the reply and the Evaluator IS invoked on it; the returned
content is the fallback apology whenever no retry replaced it
(`was_retried = false`), and equals the retry engine's final reply exactly
when the fallback was rejected and the retry succeeded
(`was_retried = true`). -/
theorem c2_amended_fallback_is_evaluated (evalO : String → Option Evaluation)
    (retryF : String → String → RetryResult) :
    ChatEvent.evalCall fallbackReply ∈ (process_chat_request none evalO retryF).2 ∧
    ((process_chat_request none evalO retryF).1.was_retried = false →
      (process_chat_request none evalO retryF).1.content = fallbackReply) ∧
    ((process_chat_request none evalO retryF).1.was_retried = true →
      ∃ e, evalO fallbackReply = some e ∧ e.is_acceptable = false ∧
        (process_chat_request none evalO retryF).1.content =
          (retryF fallbackReply e.feedback).final_response) := by
  rcases h : evalO fallbackReply with _ | e
  · simp [process_chat_request, h]
  · by_cases hacc : e.is_acceptable
    · simp [process_chat_request, h, hacc]
    · by_cases hs : (retryF fallbackReply e.feedback).was_successful
      · simp only [process_chat_request, h, hacc, hs, Option.getD_none,
          Bool.false_eq_true, if_false, if_true]
        refine ⟨by simp, by simp, ?_⟩
        intro _
        exact ⟨e, rfl, by simpa using hacc, rfl⟩
      · simp [process_chat_request, h, hacc, hs]

/-- Witness for the amended C2 at a concrete input: with an evaluator that
accepts everything, the failed-generation turn returns the fallback apology. -/
theorem c2_amended_fallback_is_evaluated_witness :
    (process_chat_request none (fun _ => some ⟨true, ""⟩)
        (fun _ _ => { final_response := "", was_successful := false,
                      attempts_made := 0, final_evaluation := none,
                      all_attempts := [], execution_time := 0 })).1.content =
      fallbackReply := by
  exact (c2_amended_fallback_is_evaluated (fun _ => some ⟨true, ""⟩)
    (fun _ _ => { final_response := "", was_successful := false,
                  attempts_made := 0, final_evaluation := none,
                  all_attempts := [], execution_time := 0 })).2.1 rfl

/-- C8: when the initial reply is rejected by the evaluator, the orchestrator
invokes the retry engine with the rejected reply and the rejection feedback;
a successful retry outcome's final reply is returned with
`was_retried = true`, and a failed one leaves the original rejected reply
unchanged with `was_retried = false`. -/
theorem c8_rejected_reply_retried (genResult : Option String)
    (evalO : String → Option Evaluation) (retryF : String → String → RetryResult)
    (e : Evaluation)
    (heval : evalO (genResult.getD fallbackReply) = some e)
    (hrej : e.is_acceptable = false) :
    ChatEvent.retryCall (genResult.getD fallbackReply) e.feedback ∈
      (process_chat_request genResult evalO retryF).2 ∧
    ((retryF (genResult.getD fallbackReply) e.feedback).was_successful = true →
      (process_chat_request genResult evalO retryF).1.content =
        (retryF (genResult.getD fallbackReply) e.feedback).final_response ∧
      (process_chat_request genResult evalO retryF).1.was_retried = true) ∧
    ((retryF (genResult.getD fallbackReply) e.feedback).was_successful = false →
      (process_chat_request genResult evalO retryF).1.content =
        genResult.getD fallbackReply ∧
      (process_chat_request genResult evalO retryF).1.was_retried = false) := by
  by_cases hs : (retryF (genResult.getD fallbackReply) e.feedback).was_successful
  · simp [process_chat_request, heval, hrej, hs]
  · simp [process_chat_request, heval, hrej, hs]

/-- Witness for C8 at a concrete input: a rejecting evaluation followed by a
successful retry returns the retry's reply with `was_retried = true`. -/
theorem c8_rejected_reply_retried_witness :
    (process_chat_request (some "r0") (fun _ => some ⟨false, "fb"⟩)
        (fun _ _ => { final_response := "r1", was_successful := true,
                      attempts_made := 1, final_evaluation := none,
                      all_attempts := [], execution_time := 0 })).1.content = "r1" ∧
    (process_chat_request (some "r0") (fun _ => some ⟨false, "fb"⟩)
        (fun _ _ => { final_response := "r1", was_successful := true,
                      attempts_made := 1, final_evaluation := none,
                      all_attempts := [], execution_time := 0 })).1.was_retried =
      true := by
  exact (c8_rejected_reply_retried (some "r0") (fun _ => some ⟨false, "fb"⟩)
    (fun _ _ => { final_response := "r1", was_successful := true,
                  attempts_made := 1, final_evaluation := none,
                  all_attempts := [], execution_time := 0 })
    ⟨false, "fb"⟩ rfl rfl).2.1 rfl

/-- When no response in `rs` (evaluated from call index `i` on) gets an
acceptable verdict, the acceptability scan of `find_best_response` finds
nothing. -/
lemma fbr_find_none (evalO : Nat → String → Option Evaluation) :
    ∀ (rs : List String) (i : Nat),
      (∀ j, (hj : j < rs.length) → acceptableOpt (evalO (i + j) (rs.get ⟨j, hj⟩)) = false) →
      (rs.zip (evaluate_multiple_responses evalO i rs)).find?
        (fun p => acceptableOpt p.2) = none := by
  intro rs
  induction rs with
  | nil => intro i _; rfl
  | cons r rs ih =>
    intro i h
    have h0 : acceptableOpt (evalO i r) = false := by simpa using h 0 (by simp)
    rw [evaluate_multiple_responses, List.zip_cons_cons, List.find?_cons_of_neg]
    · exact ih (i + 1) (fun j hj => by
        have := h (j + 1) (by simpa using Nat.succ_lt_succ hj)
        simpa [Nat.add_comm, Nat.add_assoc, Nat.add_left_comm] using this)
    · simpa using h0

/-- When the first acceptable verdict among `rs` (evaluated from call index
`i` on) is at position `i₀`, the acceptability scan of `find_best_response`
returns that response paired with its verdict. -/
lemma fbr_find_first (evalO : Nat → String → Option Evaluation) :
    ∀ (rs : List String) (i i₀ : Nat) (hi : i₀ < rs.length),
      (∀ j, (hj : j < rs.length) → j < i₀ →
        acceptableOpt (evalO (i + j) (rs.get ⟨j, hj⟩)) = false) →
      acceptableOpt (evalO (i + i₀) (rs.get ⟨i₀, hi⟩)) = true →
      (rs.zip (evaluate_multiple_responses evalO i rs)).find?
          (fun p => acceptableOpt p.2) =
        some (rs.get ⟨i₀, hi⟩, evalO (i + i₀) (rs.get ⟨i₀, hi⟩)) := by
  intro rs
  induction rs with
  | nil => intro i i₀ hi; exact absurd hi (by simp)
  | cons r rs ih =>
    intro i i₀ hi hbefore hacc
    cases i₀ with
    | zero =>
      rw [evaluate_multiple_responses, List.zip_cons_cons, List.find?_cons_of_pos]
      · simp
      · simpa using hacc
    | succ k =>
      have h0 : acceptableOpt (evalO i r) = false := by
        simpa using hbefore 0 (by simp) (Nat.succ_pos k)
      rw [evaluate_multiple_responses, List.zip_cons_cons, List.find?_cons_of_neg]
      · have hk : k < rs.length := by simpa using Nat.lt_of_succ_lt_succ hi
        have := ih (i + 1) k hk (fun j hj hjk => by
            have := hbefore (j + 1) (by simpa using Nat.succ_lt_succ hj)
              (Nat.succ_lt_succ hjk)
            simpa [Nat.add_comm, Nat.add_assoc, Nat.add_left_comm] using this)
          (by simpa [Nat.add_comm, Nat.add_assoc, Nat.add_left_comm] using hacc)
        simpa [Nat.add_comm, Nat.add_assoc, Nat.add_left_comm] using this
      · simpa using h0

/-- When no candidate's verdict is acceptable, `find_best_response` falls
back to the first candidate paired with that candidate's verdict. -/
lemma fbr_no_acceptable (evalO : Nat → String → Option Evaluation)
    (r : String) (rs : List String)
    (h : ∀ j, (hj : j < (r :: rs).length) →
      acceptableOpt (evalO j ((r :: rs).get ⟨j, hj⟩)) = false) :
    find_best_response evalO (r :: rs) = (some r, evalO 0 r) := by
  have := fbr_find_none evalO (r :: rs) 0 (fun j hj => by simpa using h j hj)
  simp only [find_best_response, this]
  rw [evaluate_multiple_responses]
  simp

/-- The bang-variant of `List.getLast` agrees with the total one on
non-empty lists. -/
lemma getLastBang_eq_getLast : ∀ (l : List String) (h : l ≠ []),
    l.getLast! = l.getLast h := by
  intro l
  induction l with
  | nil => intro h; exact absurd rfl h
  | cons a l ih =>
    intro h
    cases l with
    | nil => rfl
    | cons b l =>
      rw [List.getLast_cons (by simp), ← ih (by simp)]
      rfl

/-- C7: `find_best_response` returns `(none, none)` on an empty candidate
list; on a non-empty list it returns the first candidate (in input order)
whose verdict is acceptable together with that verdict, and when no
candidate's verdict is acceptable it returns the first candidate paired with
that candidate's verdict, which may be `none`. -/
theorem c7_find_best_response_selection (evalO : Nat → String → Option Evaluation) :
    find_best_response evalO [] = (none, none) ∧
    (∀ (rs : List String) (i₀ : Nat) (hi : i₀ < rs.length),
      (∀ j, (hj : j < rs.length) → j < i₀ →
        acceptableOpt (evalO j (rs.get ⟨j, hj⟩)) = false) →
      acceptableOpt (evalO i₀ (rs.get ⟨i₀, hi⟩)) = true →
      find_best_response evalO rs =
        (some (rs.get ⟨i₀, hi⟩), evalO i₀ (rs.get ⟨i₀, hi⟩))) ∧
    (∀ (r : String) (rs : List String),
      (∀ j, (hj : j < (r :: rs).length) →
        acceptableOpt (evalO j ((r :: rs).get ⟨j, hj⟩)) = false) →
      find_best_response evalO (r :: rs) = (some r, evalO 0 r)) := by
  refine ⟨rfl, ?_, ?_⟩
  · intro rs i₀ hi hbefore hacc
    cases rs with
    | nil => exact absurd hi (by simp)
    | cons r rs =>
      rw [find_best_response]
      have := fbr_find_first evalO (r :: rs) 0 i₀ hi
        (fun j hj hjk => by simpa using hbefore j hj hjk) (by simpa using hacc)
      simp only [this, Nat.zero_add]
  · exact fbr_no_acceptable evalO

/-- Witness for C7 at concrete inputs: with the verdict acceptable only on
call index 1, the middle candidate of three is selected with its verdict. -/
theorem c7_find_best_response_selection_witness :
    find_best_response (fun i _ => some ⟨decide (i = 1), "f"⟩) ["a", "b", "c"] =
      (some "b", some ⟨true, "f"⟩) := by
  have h := (c7_find_best_response_selection
      (fun i _ => some ⟨decide (i = 1), "f"⟩)).2.1 ["a", "b", "c"] 1 (by simp)
      (fun j hj hj1 => by interval_cases j; rfl) (by rfl)
  simpa using h

/-- C1 counterexample: BEST_OF_N with two generated candidates `"a"` then
`"b"`, both rejected: the returned reply is the LAST candidate `"b"`, not the
first candidate `"a"` — refuting the claim that the first candidate is
returned (the success flag is indeed false). -/
theorem c1_counterexample :
    ((List.range' 1 2).filterMap
        (fun i => if i = 1 then some "a" else some "b") = ["a", "b"]) ∧
    (retry_best_of_n (fun i => if i = 1 then some "a" else some "b")
        (fun _ _ => some ⟨false, "bad"⟩) "o" 2).final_response = "b" ∧
    (retry_best_of_n (fun i => if i = 1 then some "a" else some "b")
        (fun _ _ => some ⟨false, "bad"⟩) "o" 2).was_successful = false ∧
    "b" ≠ "a" := by
  refine ⟨rfl, rfl, rfl, by decide⟩

/-- C1 amended: in a BEST_OF_N invocation in which at least one candidate was
generated and no candidate's verdict is acceptable, the returned reply is the
LAST generated candidate (in generation order), the success flag is false and
no final verdict is attached. -/
theorem c1_amended_last_candidate (gen : Nat → Option String)
    (evalO : Nat → String → Option Evaluation) (orig : String) (n : Nat)
    (hne : (List.range' 1 n).filterMap gen ≠ [])
    (hrej : ∀ j, (hj : j < ((List.range' 1 n).filterMap gen).length) →
      acceptableOpt (evalO j (((List.range' 1 n).filterMap gen).get ⟨j, hj⟩)) = false) :
    ((List.range' 1 n).filterMap gen).getLast? =
      some ((retry_best_of_n gen evalO orig n).final_response) ∧
    (retry_best_of_n gen evalO orig n).was_successful = false ∧
    (retry_best_of_n gen evalO orig n).final_evaluation = none := by
  obtain ⟨r, rs, hcrs⟩ : ∃ r rs, (List.range' 1 n).filterMap gen = r :: rs := by
    cases hh : (List.range' 1 n).filterMap gen with
    | nil => exact absurd hh hne
    | cons r rs => exact ⟨r, rs, rfl⟩
  rw [hcrs] at hrej
  have hfind : find_best_response evalO (r :: rs) = (some r, evalO 0 r) :=
    fbr_no_acceptable evalO r rs hrej
  have hfold : retry_best_of_n gen evalO orig n = bonFallback orig (orig :: r :: rs) := by
    unfold retry_best_of_n
    simp only [hcrs]
    rw [hfind, if_pos (by simp)]
    cases he : evalO 0 r with
    | none => rfl
    | some e =>
      have hf : e.is_acceptable = false := by
        have := hrej 0 (by simp)
        simpa [he, acceptableOpt] using this
      simp [hf]
  rw [hfold]
  refine ⟨?_, rfl, rfl⟩
  rw [hcrs, List.getLast?_eq_getLast_of_ne_nil (by simp)]
  simp only [bonFallback]
  rw [if_pos (by simp), getLastBang_eq_getLast (orig :: r :: rs) (by simp)]
  simp

/-- Witness for the amended C1 at a concrete input: both candidates rejected,
the last candidate `"b"` is returned unsuccessfully. -/
theorem c1_amended_last_candidate_witness :
    ((List.range' 1 2).filterMap
        (fun i => if i = 1 then some "a" else some "b")).getLast? =
      some ((retry_best_of_n (fun i => if i = 1 then some "a" else some "b")
        (fun _ _ => some ⟨false, "bad"⟩) "o" 2).final_response) ∧
    (retry_best_of_n (fun i => if i = 1 then some "a" else some "b")
        (fun _ _ => some ⟨false, "bad"⟩) "o" 2).was_successful = false := by
  have h := c1_amended_last_candidate (fun i => if i = 1 then some "a" else some "b")
    (fun _ _ => some ⟨false, "bad"⟩) "o" 2 (by decide) (fun j hj => rfl)
  exact ⟨h.1, h.2.1⟩

/-- C4: a PROGRESSIVE (or MULTIPLE) retry session with `max_retries = N`
makes at most `N` generation rounds; and whenever some round's verdict is
acceptable (an evaluator call in the trace whose oracle verdict is
acceptable), the session returned successfully with `attempts_made` equal to
that round's index and that round's response as the final reply, and no round
beyond it was started — it stopped immediately at the first accepting
round. -/
theorem c4_progressive_round_bound (gen : Nat → String → String → Option String)
    (evalO : Nat → String → Option Evaluation) (N : Nat) (bd md bf : ℚ)
    (orig fb0 : String) :
    genCount (retry_with_evaluation gen evalO N bd md bf orig fb0).2 ≤ N ∧
    (∀ a resp e, RetryEvent.evalCall a resp ∈
        (retry_with_evaluation gen evalO N bd md bf orig fb0).2 →
      evalO a resp = some e → e.is_acceptable = true →
      (retry_with_evaluation gen evalO N bd md bf orig fb0).1.was_successful = true ∧
      (retry_with_evaluation gen evalO N bd md bf orig fb0).1.attempts_made = a ∧
      (retry_with_evaluation gen evalO N bd md bf orig fb0).1.final_response = resp ∧
      (∀ b p f, RetryEvent.genCall b p f ∈
        (retry_with_evaluation gen evalO N bd md bf orig fb0).2 → b ≤ a)) := by
  unfold retry_with_evaluation
  exact retryLoop_c4 gen evalO N bd md bf orig N 1 [orig] fb0 none

/-- Witness for C4 at a concrete input: two allowed rounds, the verdict
accepts on round 2; the session is successful with `attempts_made = 2` and at
most 2 generation calls were made. -/
theorem c4_progressive_round_bound_witness :
    genCount (retry_with_evaluation (fun _ _ _ => some "x")
      (fun a _ => some ⟨decide (a = 2), "fb"⟩) 2 1 1 1 "orig" "f0").2 ≤ 2 ∧
    (retry_with_evaluation (fun _ _ _ => some "x")
      (fun a _ => some ⟨decide (a = 2), "fb"⟩) 2 1 1 1 "orig" "f0").1.was_successful
        = true ∧
    (retry_with_evaluation (fun _ _ _ => some "x")
      (fun a _ => some ⟨decide (a = 2), "fb"⟩) 2 1 1 1 "orig" "f0").1.attempts_made
        = 2 := by
  have h := c4_progressive_round_bound (fun _ _ _ => some "x")
    (fun a _ => some ⟨decide (a = 2), "fb"⟩) 2 1 1 1 "orig" "f0"
  have h2 := h.2 2 "x" ⟨true, "fb"⟩ (by decide) rfl rfl
  exact ⟨h.1, h2.1, h2.2.1⟩

/-- Loop invariant for the feedback evolution of `retry_with_evaluation`:
the feedback recorded for each generation round follows the `nextFeedback`
recurrence from the feedback the loop state currently holds. -/
lemma retryLoop_c5 (gen : Nat → String → String → Option String)
    (evalO : Nat → String → Option Evaluation) (N : Nat) (bd md bf : ℚ)
    (orig : String) :
    ∀ (r attempt : Nat) (attempts : List String) (fb : String)
      (evalVar : Option (Option Evaluation)),
      feedbackChain evalO fb (roundRecords
        (retryLoop gen evalO N bd md bf orig attempt r attempts fb evalVar).2) = true := by
  intro r
  induction r with
  | zero =>
    intro attempt attempts fb evalVar
    simp [retryLoop, roundRecords, feedbackChain]
  | succ r ih =>
    intro attempt attempts fb evalVar
    rcases hg : gen attempt (attempts.getLast!) fb with _ | resp
    · have hstep : (retryLoop gen evalO N bd md bf orig attempt (r + 1) attempts fb
          evalVar).2 =
        RetryEvent.genCall attempt attempts.getLast! fb ::
          (retryLoop gen evalO N bd md bf orig (attempt + 1) r attempts fb evalVar).2 := by
        simp only [retryLoop, hg]
      have hhead : headResponse
          (retryLoop gen evalO N bd md bf orig (attempt + 1) r attempts fb evalVar).2 =
            none := by
        rcases retryLoop_shape gen evalO N bd md bf orig (attempt + 1) r attempts fb
          evalVar with hsh | ⟨p, f, rest, hsh⟩
        · rw [hsh]; rfl
        · rw [hsh]; rfl
      rw [hstep]
      simp only [roundRecords, hhead, feedbackChain, nextFeedback]
      simp [ih (attempt + 1) attempts fb evalVar]
    · rcases he : evalO attempt resp with _ | e
      · by_cases hN : attempt < N
        · have hstep : (retryLoop gen evalO N bd md bf orig attempt (r + 1) attempts fb
              evalVar).2 =
            RetryEvent.genCall attempt attempts.getLast! fb ::
              RetryEvent.evalCall attempt resp ::
                RetryEvent.sleep (backoffDelay bd md bf attempt) ::
                  (retryLoop gen evalO N bd md bf orig (attempt + 1) r (attempts ++ [resp])
                    fb (some none)).2 := by
            simp only [retryLoop, hg, he, if_pos hN, List.singleton_append]
          rw [hstep]
          simp only [roundRecords, headResponse, feedbackChain, nextFeedback, he]
          simp [ih (attempt + 1) (attempts ++ [resp]) fb (some none)]
        · have hstep : (retryLoop gen evalO N bd md bf orig attempt (r + 1) attempts fb
              evalVar).2 =
            RetryEvent.genCall attempt attempts.getLast! fb ::
              RetryEvent.evalCall attempt resp ::
                (retryLoop gen evalO N bd md bf orig (attempt + 1) r (attempts ++ [resp])
                  fb (some none)).2 := by
            simp only [retryLoop, hg, he, if_neg hN, List.nil_append]
          rw [hstep]
          simp only [roundRecords, headResponse, feedbackChain, nextFeedback, he]
          simp [ih (attempt + 1) (attempts ++ [resp]) fb (some none)]
      · by_cases ha : e.is_acceptable
        · have hstep : (retryLoop gen evalO N bd md bf orig attempt (r + 1) attempts fb
              evalVar).2 =
            [RetryEvent.genCall attempt attempts.getLast! fb,
             RetryEvent.evalCall attempt resp] := by
            simp only [retryLoop, hg, he, ha, if_true]
          rw [hstep]
          simp [roundRecords, headResponse, feedbackChain]
        · by_cases hN : attempt < N
          · have hstep : (retryLoop gen evalO N bd md bf orig attempt (r + 1) attempts fb
                evalVar).2 =
              RetryEvent.genCall attempt attempts.getLast! fb ::
                RetryEvent.evalCall attempt resp ::
                  RetryEvent.sleep (backoffDelay bd md bf attempt) ::
                    (retryLoop gen evalO N bd md bf orig (attempt + 1) r (attempts ++ [resp])
                      (if e.feedback = "" then fb else e.feedback) (some (some e))).2 := by
              simp only [retryLoop, hg, he, ha, Bool.false_eq_true, if_false, if_pos hN,
                List.singleton_append]
            rw [hstep]
            simp only [roundRecords, headResponse, feedbackChain, nextFeedback, he]
            simp [ih (attempt + 1) (attempts ++ [resp])
              (if e.feedback = "" then fb else e.feedback) (some (some e))]
          · have hstep : (retryLoop gen evalO N bd md bf orig attempt (r + 1) attempts fb
                evalVar).2 =
              RetryEvent.genCall attempt attempts.getLast! fb ::
                RetryEvent.evalCall attempt resp ::
                  (retryLoop gen evalO N bd md bf orig (attempt + 1) r (attempts ++ [resp])
                    (if e.feedback = "" then fb else e.feedback) (some (some e))).2 := by
              simp only [retryLoop, hg, he, ha, Bool.false_eq_true, if_false, if_neg hN,
                List.nil_append]
            rw [hstep]
            simp only [roundRecords, headResponse, feedbackChain, nextFeedback, he]
            simp [ih (attempt + 1) (attempts ++ [resp])
              (if e.feedback = "" then fb else e.feedback) (some (some e))]

/-- C5 counterexample: a PROGRESSIVE session with initial feedback `"init"`
whose round-1 verdict rejects with EMPTY feedback: the trace's round records
show round 2 regenerating with the unchanged feedback `"init"`, not with the
verdict's feedback `""` — refuting the claim that after every round producing
a verdict the next round uses that verdict's feedback. -/
theorem c5_counterexample :
    roundRecords (retry_with_evaluation (fun _ _ _ => some "r")
        (fun _ _ => some ⟨false, ""⟩) 2 1 1 1 "o" "init").2 =
      [(1, "init", some "r"), (2, "init", some "r")] ∧
    "init" ≠ "" := by
  exact ⟨rfl, by decide⟩

/-- C5 amended: in every PROGRESSIVE session, the feedback used by each round
follows this recurrence: round 1 uses the initial feedback; after a round
whose verdict carries non-empty feedback — even a rejecting verdict — the
next round uses exactly that verdict's feedback; after a round with no
verdict (no generated response or evaluation failure) or whose verdict's
feedback is empty, the feedback is unchanged, and the loop continues. -/
theorem c5_amended_feedback_recurrence (gen : Nat → String → String → Option String)
    (evalO : Nat → String → Option Evaluation) (N : Nat) (bd md bf : ℚ)
    (orig fb0 : String) :
    feedbackChain evalO fb0 (roundRecords
      (retry_with_evaluation gen evalO N bd md bf orig fb0).2) = true := by
  unfold retry_with_evaluation
  exact retryLoop_c5 gen evalO N bd md bf orig N 1 [orig] fb0 none

/-- Loop invariant for the sleep discipline of `retry_with_evaluation`:
under the reachable-state relation `attempt + fuel = N + 1`, every sleep in
the trace immediately follows an evaluated non-final round and lasts exactly
the backoff amount of that round, and evaluated rounds are otherwise
terminal; rounds that failed to generate are never followed by a sleep. -/
lemma retryLoop_c6 (gen : Nat → String → String → Option String)
    (evalO : Nat → String → Option Evaluation) (N : Nat) (bd md bf : ℚ)
    (orig : String) :
    ∀ (r attempt : Nat) (attempts : List String) (fb : String)
      (evalVar : Option (Option Evaluation)), attempt + r = N + 1 →
      sleepsOk N bd md bf
        (retryLoop gen evalO N bd md bf orig attempt r attempts fb evalVar).2 = true := by
  intro r
  induction r with
  | zero =>
    intro attempt attempts fb evalVar hinv
    simp [retryLoop, sleepsOk]
  | succ r ih =>
    intro attempt attempts fb evalVar hinv
    rcases hg : gen attempt (attempts.getLast!) fb with _ | resp
    · have hstep : (retryLoop gen evalO N bd md bf orig attempt (r + 1) attempts fb
          evalVar).2 =
        RetryEvent.genCall attempt attempts.getLast! fb ::
          (retryLoop gen evalO N bd md bf orig (attempt + 1) r attempts fb evalVar).2 := by
        simp only [retryLoop, hg]
      rw [hstep]
      simp only [sleepsOk]
      exact ih (attempt + 1) attempts fb evalVar (by omega)
    · rcases he : evalO attempt resp with _ | e
      · by_cases hN : attempt < N
        · have hstep : (retryLoop gen evalO N bd md bf orig attempt (r + 1) attempts fb
              evalVar).2 =
            RetryEvent.genCall attempt attempts.getLast! fb ::
              RetryEvent.evalCall attempt resp ::
                RetryEvent.sleep (backoffDelay bd md bf attempt) ::
                  (retryLoop gen evalO N bd md bf orig (attempt + 1) r (attempts ++ [resp])
                    fb (some none)).2 := by
            simp only [retryLoop, hg, he, if_pos hN, List.singleton_append]
          rw [hstep]
          simp only [sleepsOk]
          simp [hN, ih (attempt + 1) (attempts ++ [resp]) fb (some none) (by omega)]
        · have hr : r = 0 := by omega
          subst hr
          simp [retryLoop, hg, he, hN, sleepsOk]
      · by_cases ha : e.is_acceptable
        · have hstep : (retryLoop gen evalO N bd md bf orig attempt (r + 1) attempts fb
              evalVar).2 =
            [RetryEvent.genCall attempt attempts.getLast! fb,
             RetryEvent.evalCall attempt resp] := by
            simp only [retryLoop, hg, he, ha, if_true]
          rw [hstep]
          simp [sleepsOk]
        · by_cases hN : attempt < N
          · have hstep : (retryLoop gen evalO N bd md bf orig attempt (r + 1) attempts fb
                evalVar).2 =
              RetryEvent.genCall attempt attempts.getLast! fb ::
                RetryEvent.evalCall attempt resp ::
                  RetryEvent.sleep (backoffDelay bd md bf attempt) ::
                    (retryLoop gen evalO N bd md bf orig (attempt + 1) r (attempts ++ [resp])
                      (if e.feedback = "" then fb else e.feedback) (some (some e))).2 := by
              simp only [retryLoop, hg, he, ha, Bool.false_eq_true, if_false, if_pos hN,
                List.singleton_append]
            rw [hstep]
            simp only [sleepsOk]
            simp [hN, ih (attempt + 1) (attempts ++ [resp])
              (if e.feedback = "" then fb else e.feedback) (some (some e)) (by omega)]
          · have hr : r = 0 := by omega
            subst hr
            simp [retryLoop, hg, he, ha, hN, sleepsOk]

/-- C6 counterexample: a PROGRESSIVE session with `max_retries = 2` whose
round 1 fails to generate: the full trace contains NO sleep event although
round 1 is non-final and round 2 follows it — refuting the claim that the
engine sleeps between every pair of consecutive rounds. -/
theorem c6_counterexample :
    (retry_with_evaluation (fun a _ _ => if a = 1 then none else some "r")
        (fun _ _ => some ⟨false, "f"⟩) 2 1 1 1 "o" "f0").2 =
      [RetryEvent.genCall 1 "o" "f0", RetryEvent.genCall 2 "o" "f0",
       RetryEvent.evalCall 2 "r"] := by
  rfl

/-- C6 amended: in every PROGRESSIVE/MULTIPLE session with
`max_retries = N`, a sleep of exactly
`min(base_delay * backoff_multiplier^(round_index - 1), max_delay)` occurs
immediately after each evaluated round that is non-final
(`round_index < N`) and not accepted; no sleep occurs after the final round,
after an accepted round, or after a round that failed to generate a
response. -/
theorem c6_amended_sleep_discipline (gen : Nat → String → String → Option String)
    (evalO : Nat → String → Option Evaluation) (N : Nat) (bd md bf : ℚ)
    (orig fb0 : String) :
    sleepsOk N bd md bf (retry_with_evaluation gen evalO N bd md bf orig fb0).2 = true := by
  unfold retry_with_evaluation
  exact retryLoop_c6 gen evalO N bd md bf orig N 1 [orig] fb0 none (by omega)

end ChatBot

